import Mathlib

/-!
Verification development for the procedural road-network generator and
object-pooling discipline of the hyundai-mini-game repository.

The JavaScript source is shallowly embedded:
* `ObjectPool` (src/core/ObjectPool.js) becomes a record of a free stack,
  an in-use list (a JS `Set` keeps insertion order and never holds
  duplicates), and a fresh-id counter modelling the factory `createFn`
  (every factory in the repository clones a template, i.e. allocates a
  brand-new object, so the factory is modelled as a fresh-id source).
* Grid cells are integer pairs; the JS string key `"gx,gz"` is an
  injective encoding of that pair, so the pair itself is used.
* World coordinates are rationals; JavaScript number arithmetic in the
  embedded code stays exact at the scales involved, and `Math.floor` /
  `Math.round` become `Int.floor` / `round` (round half towards +inf).
-/

namespace HyundaiMiniGame

/-! ## ObjectPool (src/src/core/ObjectPool.js)

`available` is the JS array used as a stack (push/pop at the far end);
it is represented head-first, so the list head is the stack top.
`inUse` is the JS `Set` in insertion order.  `nextId` is the next id the
factory hands out; `created` counts factory calls since the last
`dispose`, a ghost field used only to state conservation. -/

structure ObjectPool where
  available : List ℕ
  inUse : List ℕ
  nextId : ℕ
  created : ℕ
deriving DecidableEq, Repr

namespace ObjectPool

/-- JS `Set.prototype.add`: append if absent (insertion order kept). -/
def setAdd (l : List ℕ) (x : ℕ) : List ℕ :=
  if x ∈ l then l else l ++ [x]

/-- Constructor with `initialSize` pre-populated objects:
`for (i in 0..initialSize-1) available.push(createFn())`. -/
def mkPool (initialSize : ℕ) : ObjectPool :=
  { available := (List.range initialSize).reverse
    inUse := []
    nextId := initialSize
    created := initialSize }

/-- `acquire()`: pop the free stack if non-empty, else call the factory;
mark the object in use and return it. -/
def acquire (p : ObjectPool) : ℕ × ObjectPool :=
  match p.available with
  | x :: rest =>
      (x, { p with available := rest, inUse := setAdd p.inUse x })
  | [] =>
      (p.nextId,
        { available := []
          inUse := setAdd p.inUse p.nextId
          nextId := p.nextId + 1
          created := p.created + 1 })

/-- `release(obj)`: warn-and-return if `obj` is not tracked as in use;
otherwise remove it from `inUse`, run the reset hook (visual only, no
bookkeeping effect) and push it on the free stack. -/
def release (p : ObjectPool) (x : ℕ) : ObjectPool :=
  if x ∈ p.inUse then
    { p with inUse := p.inUse.erase x, available := x :: p.available }
  else
    p

/-- `releaseAll()`: push every in-use object (in `Set` iteration =
insertion order) onto the free stack, then clear `inUse`. -/
def releaseAll (p : ObjectPool) : ObjectPool :=
  { p with available := p.inUse.reverse ++ p.available, inUse := [] }

/-- `dispose(disposeFn?)`: run teardown on every object (no bookkeeping
effect) and clear both lists. -/
def dispose (p : ObjectPool) : ObjectPool :=
  { p with available := [], inUse := [], created := 0 }

/-- The `stats` getter. -/
structure Stats where
  availableN : ℕ
  inUseN : ℕ
  total : ℕ
deriving DecidableEq, Repr

def stats (p : ObjectPool) : Stats :=
  { availableN := p.available.length
    inUseN := p.inUse.length
    total := p.available.length + p.inUse.length }

/-- States reachable from a freshly constructed pool by the public
operations. -/
inductive Reachable : ObjectPool → Prop
  | init (n : ℕ) : Reachable (mkPool n)
  | acq (p : ObjectPool) : Reachable p → Reachable (acquire p).2
  | rel (p : ObjectPool) (x : ℕ) : Reachable p → Reachable (release p x)
  | relAll (p : ObjectPool) : Reachable p → Reachable (releaseAll p)
  | disp (p : ObjectPool) : Reachable p → Reachable (dispose p)

/-- Structural well-formedness of a pool state. -/
def WF (p : ObjectPool) : Prop :=
  p.available.Nodup ∧ p.inUse.Nodup ∧
    (∀ x ∈ p.available, x ∉ p.inUse) ∧
    (∀ x ∈ p.available, x < p.nextId) ∧
    (∀ x ∈ p.inUse, x < p.nextId) ∧
    p.available.length + p.inUse.length = p.created

end ObjectPool

/-! ## Grid cells and centerline sampling (src/src/lowpoly.js)

`cellKey(x, z)` builds the string `"gx,gz"` from the two rounded grid
coordinates; the string is an injective encoding of the integer pair, so
cells are the pairs themselves.  `Math.round` rounds half towards
positive infinity, which is Mathlib's `round` on ℚ. -/

abbrev Cell := ℤ × ℤ

def GRID_CELL_SIZE : ℚ := 2

def cellKey (x z : ℚ) : Cell :=
  (round (x / GRID_CELL_SIZE), round (z / GRID_CELL_SIZE))

/-- Search, from `n` upwards with the given fuel, for the least natural
number whose square is at least `m`; `m` itself is always enough fuel
starting from 0, since `m ≤ m * m`. -/
def ceilSqrtAux (m : ℕ) : ℕ → ℕ → ℕ
  | 0, n => n
  | Nat.succ fuel, n => if m ≤ n * n then n else ceilSqrtAux m fuel (n + 1)

/-- Least natural number `n` with `q ≤ n ^ 2`, i.e. `Math.ceil` of the
square root of a non-negative rational (the square root itself is the
only irrational step of `sampleRoadCells`; an integer ceiling bound `k`
satisfies `sqrt q ≤ k` exactly when `q ≤ k ^ 2`, so the ceiling is
computed from the squared distance). -/
def ceilSqrt (q : ℚ) : ℕ :=
  let m := (Int.ceil q).toNat
  ceilSqrtAux m m 0

/-- A placed road-piece instance as `sampleRoadCells` sees it: the world
position of its origin (`piece.getWorldPosition`) and, when
`findSocketOut` locates one, the world position of its exit socket.  The
three.js scene-graph transform plumbing is outside the embedding; the
two resolved world points are what the sampling code reads. -/
structure RoadPiece where
  x : ℚ
  z : ℚ
  socket : Option (ℚ × ℚ)
deriving DecidableEq, Repr

/-- `sampleRoadCells(piece)`: no socket yields `[]`; otherwise sample the
origin-to-socket centerline every ~1 world unit (`steps =
max(1, ceil(distance))`, points at `t = i/steps`, `i = 0..steps`). -/
def sampleRoadCells (p : RoadPiece) : List Cell :=
  match p.socket with
  | none => []
  | some (ex, ez) =>
      let steps := max 1 (ceilSqrt ((ex - p.x) ^ 2 + (ez - p.z) ^ 2))
      (List.range (steps + 1)).map fun i =>
        let t : ℚ := (i : ℚ) / (steps : ℚ)
        cellKey (p.x + (ex - p.x) * t) (p.z + (ez - p.z) * t)

/-- `Set.prototype.add` on cells: a JS `Set` keeps insertion order and
ignores an element already present. -/
def cellAdd (l : List Cell) (c : Cell) : List Cell :=
  if c ∈ l then l else l ++ [c]

/-- The occupancy-relevant state of the lowpoly viewer:
`this.occupiedCells` (a JS `Set`, modelled as its insertion-ordered,
duplicate-free element list) and `this.roadPieces`. -/
structure RoadState where
  occupiedCells : List Cell
  roadPieces : List RoadPiece
deriving DecidableEq, Repr

/-- The last `min(2, roadPieces.length)` committed pieces (the loop over
`i = length - recentCount .. length - 1` in `trySpawnRoadPiece`). -/
def recentPieces (st : RoadState) : List RoadPiece :=
  st.roadPieces.drop (st.roadPieces.length - 2)

/-- The seam-tolerance set: the sampled cells of the most recent two
committed pieces (a JS `Set`; only membership is ever consulted, so the
raw concatenation is kept). -/
def recentCells (st : RoadState) : List Cell :=
  ((recentPieces st).map sampleRoadCells).flatten

/-- `checkCollision(cells, recentCells)`: true iff some cell is occupied
and not excused by seam tolerance. -/
def checkCollision (cells : List Cell) (occ recent : List Cell) : Bool :=
  cells.any fun c => decide (c ∈ occ) && !(decide (c ∈ recent))

/-- `trySpawnRoadPiece`: sample the candidate's cells, build the
seam-tolerance set from the last two committed pieces, reject (null) on
a road collision, otherwise mark the cells occupied
(`cells.forEach(c => occupiedCells.add(c))`) and commit the piece.
(The grass-tile replacement on the separate `worldGrid` map and the
cosmetic `y += 0.001` offset do not touch the occupancy state.) -/
def trySpawnRoadPiece (p : RoadPiece) (st : RoadState) : Option RoadState :=
  let cells := sampleRoadCells p
  if checkCollision cells st.occupiedCells (recentCells st) then none
  else some { occupiedCells := cells.foldl cellAdd st.occupiedCells
              roadPieces := st.roadPieces ++ [p] }

/-! ## RoadManager segment placement (src/unnamed/part_001)

`addSegmentAhead` aligns a segment's `inPoint` with the current road
end.  The angle `Math.atan2(dir.x, -dir.z)` enters only through the
cosine/sine pair used by `applyAxisAngle((0,1,0), angle)`, so the
trigonometric values are taken as data `(c, s)` and the vector algebra
is embedded exactly.  Positions are (x, z) pairs; y is identically 0 in
the placement arithmetic. -/

abbrev Vec2 := ℚ × ℚ

/-- Rotation about the +Y axis with cosine `c` and sine `s`:
`applyAxisAngle(new Vector3(0,1,0), angle)` sends `(x, z)` to
`(x c + z s, z c - x s)`. -/
def rotY (c s : ℚ) (v : Vec2) : Vec2 :=
  (c * v.1 + s * v.2, c * v.2 - s * v.1)

/-- A segment template's connection points (`in_point` / `out_point`
markers, or the placeholder defaults). -/
structure SegTemplate where
  inPoint : Vec2
  outPoint : Vec2
deriving DecidableEq, Repr

/-- A committed segment: its mesh world position and the rotation data
and local connection points it was placed with. -/
structure PlacedSegment where
  pos : Vec2
  c : ℚ
  s : ℚ
  inPoint : Vec2
  outPoint : Vec2
deriving DecidableEq, Repr

/-- World position of the segment's entry connection point. -/
def entryWorld (p : PlacedSegment) : Vec2 := p.pos + rotY p.c p.s p.inPoint

/-- World position of the segment's exit connection point. -/
def exitWorld (p : PlacedSegment) : Vec2 := p.pos + rotY p.c p.s p.outPoint

/-- `RoadManager.addSegmentAhead`: place the mesh at
`currentEndPosition`, subtract the rotated `inPoint`
(`position.sub(rotatedInPoint)`), then advance `currentEndPosition` to
`position + rotatedOutPoint`.  `(c, s)` is the cosine/sine of
`atan2(currentEndDirection.x, -currentEndDirection.z)`. -/
def addSegmentAhead (cs : ℚ × ℚ) (t : SegTemplate) (currentEnd : Vec2) :
    Vec2 × PlacedSegment :=
  let pos := currentEnd - rotY cs.1 cs.2 t.inPoint
  let newEnd := pos + rotY cs.1 cs.2 t.outPoint
  (newEnd, ⟨pos, cs.1, cs.2, t.inPoint, t.outPoint⟩)

/-- A linear chain of `addSegmentAhead` calls: each list entry supplies
the step's rotation data and segment template; returns the final
`currentEndPosition` and the committed segments in chain order. -/
def runChain : List ((ℚ × ℚ) × SegTemplate) → Vec2 → Vec2 × List PlacedSegment
  | [], e => (e, [])
  | step :: rest, e =>
      let r := addSegmentAhead step.1 step.2 e
      let rr := runChain rest r.1
      (rr.1, r.2 :: rr.2)

/-! ## Direction-constrained policy of `spawnProceduralRoadSystem1`
(src/src/lowpoly.js)

The geometric pipeline of one attempt (clone, snap to the previous
socket, sample, collision-check) is abstracted into an `accept` oracle,
and `Math.random`-driven shuffling into a `shuffle` oracle; the
candidate construction, `filterByRules` and the tracking-state updates
are embedded verbatim, so the direction-rule properties hold for every
oracle. -/

inductive RoadKey
  | road_long
  | road_short
  | road_curve_wide
  | road_curve_tight
deriving DecidableEq, Repr

/-- `ROAD_TYPES[key].type === 'curve'`. -/
def isCurveKey : RoadKey → Bool
  | .road_curve_wide => true
  | .road_curve_tight => true
  | _ => false

/-- A `{ key, mirror }` candidate. -/
structure Candidate where
  key : RoadKey
  mirror : Bool
deriving DecidableEq, Repr

/-- `const dir = mirror ? -1 : 1`. -/
def candDir (c : Candidate) : ℤ := if c.mirror then -1 else 1

/-- The tracking state carried between commits. -/
structure DirState where
  lastCurveDir : ℤ
  sameDirCount : ℕ
  straightsSinceCurve : ℕ
deriving DecidableEq, Repr

def MAX_SAME_DIR_CURVES : ℕ := 2
def MIN_STRAIGHTS_AFTER_CURVE : ℕ := 1

/-- `lastCurveDir = 0`, `sameDirCount = 0`,
`straightsSinceCurve = 99` (allow curves from the start). -/
def initDirState : DirState := ⟨0, 0, 99⟩

/-- The predicate of `filterByRules` for one candidate. -/
def ruleAllows (st : DirState) (c : Candidate) : Bool :=
  if !isCurveKey c.key then true
  else if st.straightsSinceCurve < MIN_STRAIGHTS_AFTER_CURVE then false
  else if candDir c = st.lastCurveDir ∧ MAX_SAME_DIR_CURVES ≤ st.sameDirCount
    then false
  else true

def filterByRules (st : DirState) (cands : List Candidate) : List Candidate :=
  cands.filter (ruleAllows st)

/-- Candidate construction: straights only for the first three pieces,
afterwards every type plus mirrored variants of the curves, in
`Object.keys(ROAD_TYPES)` order. -/
def buildCandidates (i : ℕ) : List Candidate :=
  if i < 3 then
    [⟨.road_long, false⟩, ⟨.road_short, false⟩]
  else
    [⟨.road_long, false⟩, ⟨.road_short, false⟩,
     ⟨.road_curve_wide, false⟩, ⟨.road_curve_wide, true⟩,
     ⟨.road_curve_tight, false⟩, ⟨.road_curve_tight, true⟩]

/-- The direction-tracking update executed only on commit. -/
def commitUpdate (st : DirState) (c : Candidate) : DirState :=
  if isCurveKey c.key then
    { lastCurveDir := candDir c
      sameDirCount :=
        if candDir c = st.lastCurveDir then st.sameDirCount + 1 else 1
      straightsSinceCurve := 0 }
  else
    { st with straightsSinceCurve := st.straightsSinceCurve + 1 }

/-- The inner `for (const { key, mirror } of candidates)` loop: the first
candidate the oracle accepts (clone + place + sample + collision check
all succeed) is committed; a candidate whose template failed to load and
a candidate rejected by `checkCollision` both fall through to the next
one. -/
def firstAccepted (accept : Candidate → Bool) : List Candidate → Option Candidate
  | [] => none
  | c :: rest => if accept c then some c else firstAccepted accept rest

/-- Generation state: the tracking triple and the committed candidates,
most recent first (`roadPieces.push` seen from the end). -/
structure GenState where
  dirState : DirState
  committedRev : List Candidate
deriving DecidableEq, Repr

/-- One iteration of the spawn loop at piece index `i`. -/
def spawnStep (shuffle : ℕ → List Candidate → List Candidate)
    (accept : ℕ → Candidate → Bool) (i : ℕ) (g : GenState) :
    Option GenState :=
  let cands := shuffle i (filterByRules g.dirState (buildCandidates i))
  match firstAccepted (accept i) cands with
  | none => none
  | some c => some ⟨commitUpdate g.dirState c, c :: g.committedRev⟩

/-- The spawn loop: `count` iterations, stopping at the first dead end
(`if (!placed) break`). -/
def spawnLoop (shuffle : ℕ → List Candidate → List Candidate)
    (accept : ℕ → Candidate → Bool) :
    ℕ → ℕ → GenState → GenState
  | 0, _, g => g
  | Nat.succ fuel, i, g =>
      match spawnStep shuffle accept i g with
      | none => g
      | some g' => spawnLoop shuffle accept fuel (i + 1) g'

def spawnProceduralRoadSystem1 (count : ℕ)
    (shuffle : ℕ → List Candidate → List Candidate)
    (accept : ℕ → Candidate → Bool) : GenState :=
  spawnLoop shuffle accept count 0 ⟨initDirState, []⟩

/-- The turn directions of the curve subsequence of a committed list
(order preserved). -/
def curveDirs (l : List Candidate) : List ℤ :=
  (l.filter fun c => isCurveKey c.key).map candDir

/-- Invariant tying the direction-tracking state to the commit history
(most recent first): the tracking fields record the tail streak of the
curve subsequence, the state is the fold of `commitUpdate` over the
chronological history, and the history satisfies both direction rules. -/
def DirInv (g : GenState) : Prop :=
  (∀ c, g.committedRev.head? = some c → isCurveKey c.key = true →
    g.dirState.straightsSinceCurve = 0) ∧
  (∀ d, (curveDirs g.committedRev).head? = some d →
    g.dirState.lastCurveDir = d ∧ 1 ≤ g.dirState.sameDirCount) ∧
  (∀ d, (curveDirs g.committedRev).head? = some d →
    (curveDirs g.committedRev).tail.head? = some d →
    2 ≤ g.dirState.sameDirCount) ∧
  g.dirState = g.committedRev.reverse.foldl commitUpdate initDirState ∧
  (∀ d : ℤ, ¬ [d, d, d] <:+: curveDirs g.committedRev) ∧
  List.Chain' (fun a b => ¬(isCurveKey a.key = true ∧ isCurveKey b.key = true))
    g.committedRev

/-! ## `generateRoad` (src/src/lowpoly.js)

The road templates are opaque geometry; what the chain logic reads from
a template is the world transform of the cloned instance's exit socket
as a function of the placement, or nothing when `findSocketOut` finds no
socket.  `σ` is the opaque orientation carrier (the quaternion). -/

structure TemplateGeom (σ : Type) where
  socketOut : Option (Vec2 → σ → Vec2 × σ)

/-- The test instance built by `trySpawnRoadPiece(name, pos, quat)`: its
origin sits at `pos` and its socket world point, when the template has
one, is resolved from the placement. -/
def mkInstance {σ : Type} (tg : TemplateGeom σ) (pos : Vec2) (rot : σ) :
    RoadPiece :=
  { x := pos.1, z := pos.2
    socket := tg.socketOut.map fun f => (f pos rot).1 }

/-- `getSocketTransform(piece)`: the committed piece's exit-socket world
transform, or null without a socket. -/
def instanceSocketTransform {σ : Type} (tg : TemplateGeom σ) (pos : Vec2)
    (rot : σ) : Option (Vec2 × σ) :=
  tg.socketOut.map fun f => f pos rot

/-- `for (const pieceName of shuffled) { piece = trySpawnRoadPiece(...);
if (piece) break; }` — a missing template (`trySpawnRoadPiece` returns
null immediately) falls through exactly like a collision rejection. -/
def tryPieceNames {σ : Type} (templates : RoadKey → Option (TemplateGeom σ))
    (pos : Vec2) (rot : σ) (st : RoadState) :
    List RoadKey → Option (TemplateGeom σ × RoadState)
  | [] => none
  | n :: rest =>
      match templates n with
      | none => tryPieceNames templates pos rot st rest
      | some tg =>
          match trySpawnRoadPiece (mkInstance tg pos rot) st with
          | none => tryPieceNames templates pos rot st rest
          | some st' => some (tg, st')

def maxFailures : ℕ := 5

/-- Mutable state of one `generateRoad` run. -/
structure GenRoadState (σ : Type) where
  road : RoadState
  currentPos : Vec2
  currentRot : σ
  consecutiveFailures : ℕ

/-- `for (let i = 0; i < count && consecutiveFailures < maxFailures; i++)`:
straights-only options while recovering, shuffled attempt of each
option, `consecutiveFailures++` and `continue` when all fail, otherwise
reset the failure counter and advance the frontier to the committed
piece's socket transform when it has one. -/
def generateRoadLoop {σ : Type} (templates : RoadKey → Option (TemplateGeom σ))
    (shuffleK : ℕ → List RoadKey → List RoadKey) :
    ℕ → ℕ → GenRoadState σ → GenRoadState σ
  | 0, _, g => g
  | Nat.succ fuel, i, g =>
      if g.consecutiveFailures < maxFailures then
        let opts := if 0 < g.consecutiveFailures then
            [RoadKey.road_long, RoadKey.road_short]
          else
            [RoadKey.road_long, RoadKey.road_short,
             RoadKey.road_curve_wide, RoadKey.road_curve_tight]
        match tryPieceNames templates g.currentPos g.currentRot g.road
            (shuffleK i opts) with
        | none =>
            generateRoadLoop templates shuffleK fuel (i + 1)
              { g with consecutiveFailures := g.consecutiveFailures + 1 }
        | some (tg, st') =>
            let g' : GenRoadState σ :=
              match instanceSocketTransform tg g.currentPos g.currentRot with
              | some pr =>
                  { road := st', currentPos := pr.1, currentRot := pr.2
                    consecutiveFailures := 0 }
              | none =>
                  { g with road := st', consecutiveFailures := 0 }
            generateRoadLoop templates shuffleK fuel (i + 1) g'
      else g

/-- `generateRoad(count)`: clear pieces and occupied cells, start the
frontier at the origin with the identity orientation, run the loop. -/
def generateRoad {σ : Type} (templates : RoadKey → Option (TemplateGeom σ))
    (shuffleK : ℕ → List RoadKey → List RoadKey) (count : ℕ) (rot0 : σ) :
    GenRoadState σ :=
  generateRoadLoop templates shuffleK count 0
    { road := ⟨∅, []⟩, currentPos := (0, 0), currentRot := rot0
      consecutiveFailures := 0 }

/-- Concrete template table whose pieces have no discoverable exit
socket, used to exercise the missing-socket path of `generateRoad`. -/
def noSocketTemplates : RoadKey → Option (TemplateGeom Unit) :=
  fun _ => some ⟨none⟩

def idShuffleK : ℕ → List RoadKey → List RoadKey := fun _ l => l

def genRoadNoSocket3 : GenRoadState Unit :=
  generateRoad noSocketTemplates idShuffleK 3 ()

/-! ## `spawnSpineAndBranchSystem3` (src/src/lowpoly.js)

The seeded mulberry32 PRNG is embedded bit-exactly on unsigned 32-bit
patterns (`Nat` values `< 2^32`); socket world transforms are opaque
oracle functions over an opaque transform type `T` (the scene-graph
world-matrix machinery), indexed by the spine position or branch piece
index they are resolved at.  `this.occupiedCells` is threaded through
untouched: System 3 performs no collision checking. -/

namespace System3

def SEED : ℕ := 12345

def SPINE_LENGTH : ℕ := 20

/-- The IEEE double literal `0.2` and the rational `1/5` classify every
32-bit draw `r / 2^32` identically (both cut strictly between
`858993459/2^32` and `858993460/2^32`), so the chance is 1/5. -/
def ROADX_CHANCE : ℚ := 1 / 5

/-- One `seededRandom()` call: mulberry32 on the unsigned 32-bit pattern
of `seedState`.  `|0`, `Math.imul` and `>>>` act on the same patterns;
`+` stays exact below 2^53 before truncation.  Returns the advanced
state and the draw in `[0, 1)`. -/
def seededRandom (s : ℕ) : ℕ × ℚ :=
  let s1 := (s + 0x6D2B79F5) % 2 ^ 32
  let t1 := ((s1 ^^^ (s1 >>> 15)) * (1 ||| s1)) % 2 ^ 32
  let t2 := ((t1 + ((t1 ^^^ (t1 >>> 7)) * (61 ||| t1)) % 2 ^ 32) % 2 ^ 32) ^^^ t1
  let r := t2 ^^^ (t2 >>> 14)
  (s1, (r : ℚ) / 4294967296)

inductive PieceType
  | Road1
  | RoadX
deriving DecidableEq, Repr

/-- One committed spine piece: its position in the spine, its type and
the transform it was snapped to. -/
structure SpinePiece (T : Type) where
  idx : ℕ
  type : PieceType
  placedAt : T
deriving DecidableEq, Repr

/-- A queued side-street request: the captured branch-socket world
transform, the side and the requested chain length. -/
structure BranchReq (T : Type) where
  transform : T
  isLeft : Bool
  len : ℕ
deriving DecidableEq, Repr

/-- Accumulated spine output: committed pieces in order, queued branch
requests in order. -/
structure SpineAcc (T : Type) where
  pieces : List (SpinePiece T)
  branches : List (BranchReq T)
deriving DecidableEq, Repr

/-- Number of committed junction (RoadX) pieces. -/
def roadXCount {T : Type} (l : List (SpinePiece T)) : ℕ :=
  (l.filter fun p => decide (p.type = PieceType.RoadX)).length

/-- One spine iteration's commit: push the piece (`RoadX` when the
interior draw succeeded, else `Road1`), and for a RoadX queue its left
then right branch-socket transforms (each with requested chain length
5) when they resolve. -/
def spineStep {T : Type} (leftS rightS : ℕ → T → Option T) (i : ℕ)
    (useRoadX : Bool) (cur : T) (acc : SpineAcc T) : SpineAcc T :=
  let ty := if useRoadX then PieceType.RoadX else PieceType.Road1
  let acc1 : SpineAcc T :=
    { acc with pieces := acc.pieces ++ [⟨i, ty, cur⟩] }
  if useRoadX then
    { acc1 with branches := acc1.branches ++
        ((leftS i cur).toList.map fun t => ⟨t, true, 5⟩) ++
        ((rightS i cur).toList.map fun t => ⟨t, false, 5⟩) }
  else acc1

/-- The main spine loop.  `useRoadX` draws from the PRNG only on
interior positions (the `(i > 0 && i < SPINE_LENGTH - 1)` guard
short-circuits before `seededRandom()`); the loop stops early when
`socket_out` is missing. -/
def spineLoop {T : Type} (outS leftS rightS : ℕ → T → Option T) :
    ℕ → ℕ → ℕ → T → SpineAcc T → SpineAcc T
  | 0, _, _, _, acc => acc
  | Nat.succ fuel, i, seed, cur, acc =>
      let interior := 0 < i ∧ i < SPINE_LENGTH - 1
      let seed' := if interior then (seededRandom seed).1 else seed
      let useRoadX :=
        if interior then decide ((seededRandom seed).2 < ROADX_CHANCE)
        else false
      let acc2 := spineStep leftS rightS i useRoadX cur acc
      match outS i cur with
      | some nxt => spineLoop outS leftS rightS fuel (i + 1) seed' nxt acc2
      | none => acc2

/-- One side-street walk: `for (j = 0; j < branch.length; j++)` spawns a
`Road1` at the current transform, then follows its `socket_out`,
breaking when none resolves.  Returns the committed branch pieces. -/
def walkBranch {T : Type} (sockJ : ℕ → T → Option T) :
    ℕ → ℕ → T → List (PieceType × T)
  | 0, _, _ => []
  | Nat.succ fuel, j, cur =>
      (PieceType.Road1, cur) ::
        match sockJ j cur with
        | some nxt => walkBranch sockJ fuel (j + 1) nxt
        | none => []

/-- The full System 3 run: the 20-piece seeded spine, then each queued
branch walked independently.  `occ` is `this.occupiedCells`, which the
procedure neither reads nor writes. -/
def spawnSpineAndBranchSystem3 {T : Type} (outS leftS rightS : ℕ → T → Option T)
    (branchOutS : ℕ → ℕ → T → Option T) (t0 : T) (occ : List Cell) :
    SpineAcc T × List (List (PieceType × T)) × List Cell :=
  let spine := spineLoop outS leftS rightS SPINE_LENGTH 0 SEED t0 ⟨[], []⟩
  let chains := spine.branches.enum.map fun kb =>
    walkBranch (branchOutS kb.1) kb.2.len 0 kb.2.transform
  (spine, chains, occ)

end System3

/-! ## BuildingManager (src/src/core/BuildingManager.js)

`Math.random()` is an oracle stream `rnd : ℕ → ℚ` consumed through a
draw counter carried in the state; the counter starts after `init()`
(pool pre-warming and placeholder construction draw before any section
is generated, and `spawnBuilding` never triggers the pool factory while
fewer than the 30 pre-warmed buildings are active, so no factory draws
occur in the runs below).  Each spawned building records, as a ghost
field, the grid key that `generateSection` inserted for it. -/

namespace BuildingM

def gridCellSize : ℚ := 15

def spawnDistance : ℚ := 200

def despawnDistance : ℚ := 50

def rowsPerSide : ℕ := 2

/-- `-roadWidth/2 - sidewalkWidth - buildingSetback`. -/
def leftEdge : ℚ := -(12 / 2) - 3 - 2

/-- `roadWidth/2 + sidewalkWidth + buildingSetback`. -/
def rightEdge : ℚ := 12 / 2 + 3 + 2

/-- The building cell key `"gx_gz"` with `Math.floor`. -/
def bmCellKey (x z : ℚ) : Cell := (⌊x / gridCellSize⌋, ⌊z / gridCellSize⌋)

/-- An active building: its mesh x position, its `worldZ` (the jittered
z it was spawned at) and, as a ghost field, the occupancy key claimed
for it at spawn time. -/
structure Building where
  x : ℚ
  worldZ : ℚ
  claimedCell : Cell
deriving DecidableEq, Repr

structure BMState where
  occupiedCells : List Cell
  activeBuildings : List Building
  lastSpawnZ : ℚ
  rndIdx : ℕ
deriving DecidableEq

/-- One row of `generateSection`'s per-z loop: draw the lateral jitter
for `x`, then — when the cell is free (short-circuit: the 80% draw is
not consumed otherwise) and the 80% draw passes — spawn a building at
`(x, z + Math.random() * 5)` (one more draw, plus one inside
`spawnBuilding` for the cosmetic y rotation) and claim the cell key
computed from the *unjittered* `z`. -/
def spawnRowStep (rnd : ℕ → ℚ) (z xBase sign : ℚ) (row : ℕ)
    (st : BMState) : BMState :=
  let rx := rnd st.rndIdx
  let st1 : BMState := { st with rndIdx := st.rndIdx + 1 }
  let x := xBase + sign * ((row : ℚ) * gridCellSize + rx * 5)
  let ck := bmCellKey x z
  if ck ∉ st1.occupiedCells then
    let rc := rnd st1.rndIdx
    let st2 : BMState := { st1 with rndIdx := st1.rndIdx + 1 }
    if rc > 1 / 5 then
      let rj := rnd st2.rndIdx
      let st3 : BMState := { st2 with rndIdx := st2.rndIdx + 2 }
      { st3 with
          activeBuildings := st3.activeBuildings ++ [⟨x, z + rj * 5, ck⟩]
          occupiedCells := cellAdd st3.occupiedCells ck }
    else st2
  else st1

/-- The four rows (two per side) processed for one z value. -/
def generateSectionZ (rnd : ℕ → ℚ) (z : ℚ) (st : BMState) : BMState :=
  let stL := (List.range rowsPerSide).foldl
    (fun s row => spawnRowStep rnd z leftEdge (-1) row s) st
  (List.range rowsPerSide).foldl
    (fun s row => spawnRowStep rnd z rightEdge 1 row s) stL

/-- Number of iterations of `for (let z = startZ; z > endZ; z -= 15)`. -/
def sectionIterCount (startZ endZ : ℚ) : ℕ :=
  if startZ > endZ then (Int.ceil ((startZ - endZ) / gridCellSize)).toNat
  else 0

/-- `generateSection(startZ, endZ)`. -/
def generateSection (rnd : ℕ → ℚ) (startZ endZ : ℚ) (st : BMState) : BMState :=
  (List.range (sectionIterCount startZ endZ)).foldl
    (fun s k => generateSectionZ rnd (startZ - gridCellSize * (k : ℚ)) s) st

/-- `update(playerPosition)`: grow a section ahead when
`lastSpawnZ > playerZ - spawnDistance` (and only then move
`lastSpawnZ`), then retire every active building with
`worldZ > playerZ + despawnDistance`, deleting for each the key
recomputed from `mesh.position.x` and the *jittered* `worldZ`.  Scene
removal and the pool release carry no occupancy bookkeeping. -/
def update (rnd : ℕ → ℚ) (playerZ : ℚ) (st : BMState) : BMState :=
  let targetSpawnZ := playerZ - spawnDistance
  let st1 := if st.lastSpawnZ > targetSpawnZ then
      { generateSection rnd st.lastSpawnZ targetSpawnZ st with
          lastSpawnZ := targetSpawnZ }
    else st
  let despawnZ := playerZ + despawnDistance
  let removed := st1.activeBuildings.filter fun b => decide (b.worldZ > despawnZ)
  let kept := st1.activeBuildings.filter fun b => !decide (b.worldZ > despawnZ)
  { st1 with
      occupiedCells := removed.foldl
        (fun o b => o.erase (bmCellKey b.x b.worldZ)) st1.occupiedCells
      activeBuildings := kept }

/-- A concrete `Math.random` stream: draw 9 passes the 80% spawn check,
draw 10 is the z jitter 0.9 (so the jittered z crosses a 15-unit grid
boundary), everything else is 0.1. -/
def bugRnd : ℕ → ℚ := fun n =>
  if n = 9 then 1 / 2 else if n = 10 then 9 / 10 else 1 / 10

/-- Constructor state: nothing occupied, nothing active,
`lastSpawnZ = 0`. -/
def bmS0 : BMState := ⟨∅, [], 0, 0⟩

def bmS1 : BMState := update bugRnd 199 bmS0

def bmS2 : BMState := update bugRnd 188 bmS1

def bmS3 : BMState := update bugRnd (-50) bmS2

end BuildingM

namespace ObjectPool

theorem wf_mkPool (n : ℕ) : WF (mkPool n) := by
  refine ⟨?_, ?_, ?_, ?_, ?_, ?_⟩ <;> simp [mkPool, List.nodup_range]

theorem setAdd_of_not_mem {l : List ℕ} {x : ℕ} (h : x ∉ l) :
    setAdd l x = l ++ [x] := by
  simp [setAdd, h]

theorem wf_acquire {p : ObjectPool} (h : WF p) : WF (acquire p).2 := by
  obtain ⟨hav, hiu, hdisj, hbav, hbiu, hcons⟩ := h
  match hp : p.available with
  | x :: rest =>
      have hxav : x ∈ p.available := by rw [hp]; exact List.mem_cons_self x rest
      have hxiu : x ∉ p.inUse := hdisj x hxav
      rw [hp] at hav hcons
      have hrest : rest.Nodup := hav.of_cons
      have hxrest : x ∉ rest := (List.nodup_cons.mp hav).1
      simp only [WF, acquire, hp, setAdd_of_not_mem hxiu]
      refine ⟨hrest, ?_, ?_, ?_, ?_, ?_⟩
      · exact List.Nodup.append hiu (List.nodup_singleton x)
          (by intro a ha hb; simp at hb; subst hb; exact hxiu ha)
      · intro y hy hmem
        have hyav : y ∈ p.available := by rw [hp]; exact List.mem_cons_of_mem x hy
        rcases List.mem_append.mp hmem with h1 | h2
        · exact hdisj y hyav h1
        · simp at h2; subst h2; exact hxrest hy
      · intro y hy
        exact hbav y (by rw [hp]; exact List.mem_cons_of_mem x hy)
      · intro y hy
        rcases List.mem_append.mp hy with h1 | h2
        · exact hbiu y h1
        · simp at h2; subst h2; exact hbav y hxav
      · simp at hcons ⊢
        omega
  | [] =>
      have hfresh : p.nextId ∉ p.inUse := fun hm => lt_irrefl _ (hbiu _ hm)
      rw [hp] at hcons
      simp only [WF, acquire, hp, setAdd_of_not_mem hfresh]
      refine ⟨List.nodup_nil, ?_, ?_, ?_, ?_, ?_⟩
      · exact List.Nodup.append hiu (List.nodup_singleton _)
          (by intro a ha hb; simp at hb; subst hb; exact hfresh ha)
      · intro y hy; simp at hy
      · intro y hy; simp at hy
      · intro y hy
        rcases List.mem_append.mp hy with h1 | h2
        · exact Nat.lt_succ_of_lt (hbiu y h1)
        · simp at h2; subst h2; exact Nat.lt_succ_self _
      · simp at hcons ⊢
        omega

theorem wf_release {p : ObjectPool} (x : ℕ) (h : WF p) : WF (release p x) := by
  obtain ⟨hav, hiu, hdisj, hbav, hbiu, hcons⟩ := h
  by_cases hx : x ∈ p.inUse
  · simp only [WF, release, if_pos hx]
    refine ⟨?_, ?_, ?_, ?_, ?_, ?_⟩
    · exact List.nodup_cons.mpr ⟨fun hm => hdisj x hm hx, hav⟩
    · exact hiu.erase x
    · intro y hy
      rcases List.mem_cons.mp hy with rfl | hy'
      · exact fun hm => (List.Nodup.not_mem_erase hiu) hm
      · exact fun hm => hdisj y hy' (List.mem_of_mem_erase hm)
    · intro y hy
      rcases List.mem_cons.mp hy with rfl | hy'
      · exact hbiu y hx
      · exact hbav y hy'
    · intro y hy; exact hbiu y (List.mem_of_mem_erase hy)
    · have hlen : (p.inUse.erase x).length = p.inUse.length - 1 :=
        List.length_erase_of_mem hx
      have hpos : 1 ≤ p.inUse.length := List.length_pos.mpr (fun he => by
        rw [he] at hx; exact List.not_mem_nil x hx)
      simp only [List.length_cons, hlen]
      omega
  · simpa only [release, if_neg hx] using
      ⟨hav, hiu, hdisj, hbav, hbiu, hcons⟩

theorem wf_releaseAll {p : ObjectPool} (h : WF p) : WF (releaseAll p) := by
  obtain ⟨hav, hiu, hdisj, hbav, hbiu, hcons⟩ := h
  simp only [WF, releaseAll]
  refine ⟨?_, List.nodup_nil, ?_, ?_, ?_, ?_⟩
  · exact List.Nodup.append (List.nodup_reverse.mpr hiu) hav
      (by intro a ha hb
          exact hdisj a hb (List.mem_reverse.mp ha))
  · intro y _ hm; exact List.not_mem_nil y hm
  · intro y hy
    rcases List.mem_append.mp hy with h1 | h2
    · exact hbiu y (List.mem_reverse.mp h1)
    · exact hbav y h2
  · intro y hy; exact absurd hy (List.not_mem_nil y)
  · simp only [List.length_append, List.length_reverse, List.length_nil]
    omega

theorem wf_dispose {p : ObjectPool} (_ : WF p) : WF (dispose p) := by
  refine ⟨?_, ?_, ?_, ?_, ?_, ?_⟩ <;> simp [dispose]

theorem wf_of_reachable {p : ObjectPool} (h : Reachable p) : WF p := by
  induction h with
  | init n => exact wf_mkPool n
  | acq p _ ih => exact wf_acquire ih
  | rel p x _ ih => exact wf_release x ih
  | relAll p _ ih => exact wf_releaseAll ih
  | disp p _ ih => exact wf_dispose ih

end ObjectPool

/-! ## Claims C7-C10: the object pool -/

open ObjectPool

/-- C7.  Pool acquire is LIFO: with a non-empty free list, `acquire()`
pops the top of the free stack (hence, right after a `release(x)`, it
returns `x`, the most recently released instance) and marks it in use;
with an empty free list it invokes the factory.  In the 3-acquire /
2-release / 1-acquire scenario from an initially empty pool, the
re-acquired object is the most recently released one and
`stats.total = 3`. -/
theorem C7_pool_acquire_lifo :
    (∀ (p : ObjectPool) (x : ℕ) (rest : List ℕ),
        p.available = x :: rest →
        (acquire p).1 = x ∧ (acquire p).2.available = rest ∧
          (acquire p).2.inUse = setAdd p.inUse x) ∧
    (∀ p : ObjectPool, p.available = [] →
        (acquire p).1 = p.nextId ∧ (acquire p).2.created = p.created + 1) ∧
    (∀ (p : ObjectPool) (x : ℕ), x ∈ p.inUse →
        (acquire (release p x)).1 = x) ∧
    ((acquire (release (release ((mkPool 0).acquire.2.acquire.2.acquire.2)
        (mkPool 0).acquire.1) (mkPool 0).acquire.2.acquire.1)).1 =
          (mkPool 0).acquire.2.acquire.1 ∧
      (stats (acquire (release (release
        ((mkPool 0).acquire.2.acquire.2.acquire.2)
        (mkPool 0).acquire.1) (mkPool 0).acquire.2.acquire.1)).2).total = 3) := by
  refine ⟨?_, ?_, ?_, ?_⟩
  · intro p x rest h
    simp [acquire, h]
  · intro p h
    simp [acquire, h]
  · intro p x hx
    simp [release, hx, acquire]
  · constructor <;> decide

/-- Witness for C7 at concrete inputs: the hypotheses of the first three
conjuncts hold at the states shown, and the conclusions evaluate. -/
theorem C7_pool_acquire_lifo_witness :
    (acquire ⟨[3, 4], [5], 6, 3⟩).1 = 3 ∧
    (acquire ⟨[], [5], 6, 2⟩).1 = 6 ∧
    (acquire (release ⟨[], [7], 8, 1⟩ 7)).1 = 7 := by
  refine ⟨?_, ?_, ?_⟩
  · exact (C7_pool_acquire_lifo.1 ⟨[3, 4], [5], 6, 3⟩ 3 [4] rfl).1
  · exact (C7_pool_acquire_lifo.2.1 ⟨[], [5], 6, 2⟩ rfl).1
  · exact C7_pool_acquire_lifo.2.2.1 ⟨[], [7], 8, 1⟩ 7 (by decide)

/-- C8.  Release misuse guard and idempotence: `release(x)` on an object
not tracked as in use leaves the pool state untouched (the warning has
no state effect), so a second consecutive `release(x)` is a no-op and
the double release equals the single release — in particular `x` is not
duplicated in the free list. -/
theorem C8_release_idempotent :
    (∀ (p : ObjectPool) (x : ℕ), x ∉ p.inUse → release p x = p) ∧
    (∀ (p : ObjectPool) (x : ℕ), p.inUse.Nodup →
        release (release p x) x = release p x) ∧
    (∀ (p : ObjectPool) (x : ℕ), p.inUse.Nodup →
        (release (release p x) x).available.count x =
          (release p x).available.count x) := by
  have h1 : ∀ (p : ObjectPool) (x : ℕ), x ∉ p.inUse → release p x = p := by
    intro p x hx
    simp [release, hx]
  have h2 : ∀ (p : ObjectPool) (x : ℕ), p.inUse.Nodup →
      release (release p x) x = release p x := by
    intro p x hnd
    by_cases hx : x ∈ p.inUse
    · apply h1
      simp only [release, if_pos hx]
      exact hnd.not_mem_erase
    · rw [h1 p x hx, h1 p x hx]
  exact ⟨h1, h2, fun p x hnd => by rw [h2 p x hnd]⟩

/-- Witness for C8: double release of object 7 from a concrete pool
equals the single release. -/
theorem C8_release_idempotent_witness :
    release (release ⟨[], [7, 9], 10, 2⟩ 7) 7 = release ⟨[], [7, 9], 10, 2⟩ 7 ∧
    release ⟨[5], [], 6, 1⟩ 5 = ⟨[5], [], 6, 1⟩ := by
  constructor
  · exact C8_release_idempotent.2.1 ⟨[], [7, 9], 10, 2⟩ 7 (by decide)
  · exact C8_release_idempotent.1 ⟨[5], [], 6, 1⟩ 5 (by decide)

/-- C9.  Pool conservation: in every reachable pool state the `stats`
getter reports `available + inUse = total` and `total` equals the
number of objects the factory has created since the last `dispose`;
`acquire` never decreases `total`, `release` and `releaseAll` preserve
it, and `dispose` is the only operation that resets it (to zero). -/
theorem C9_pool_conservation (p : ObjectPool) (h : Reachable p) :
    (stats p).availableN + (stats p).inUseN = (stats p).total ∧
    (stats p).total = p.created ∧
    (stats p).total ≤ (stats (acquire p).2).total ∧
    (∀ x : ℕ, (stats (release p x)).total = (stats p).total) ∧
    (stats (releaseAll p)).total = (stats p).total ∧
    (stats (dispose p)).total = 0 := by
  obtain ⟨hav, hiu, hdisj, hbav, hbiu, hcons⟩ := wf_of_reachable h
  refine ⟨rfl, hcons, ?_, ?_, ?_, ?_⟩
  · match hp : p.available with
    | x :: rest =>
        have hxiu : x ∉ p.inUse := hdisj x (by rw [hp]; exact List.mem_cons_self x rest)
        simp [stats, acquire, hp, setAdd_of_not_mem hxiu]
        omega
    | [] =>
        have hfresh : p.nextId ∉ p.inUse := fun hm => lt_irrefl _ (hbiu _ hm)
        simp [stats, acquire, hp, setAdd_of_not_mem hfresh]
  · intro x
    by_cases hx : x ∈ p.inUse
    · have hlen : (p.inUse.erase x).length = p.inUse.length - 1 :=
        List.length_erase_of_mem hx
      have hpos : 1 ≤ p.inUse.length := List.length_pos.mpr (fun he => by
        rw [he] at hx; exact List.not_mem_nil x hx)
      simp [stats, release, hx, hlen]
      omega
    · simp [stats, release, hx]
  · simp [stats, releaseAll]
    omega
  · simp [stats, dispose]

/-- Witness for C9 at the reachable state
`acquire (mkPool 1)` (one pre-warmed object, then one acquire). -/
theorem C9_pool_conservation_witness :
    (stats (acquire (mkPool 1)).2).availableN +
        (stats (acquire (mkPool 1)).2).inUseN =
      (stats (acquire (mkPool 1)).2).total ∧
    (stats (acquire (mkPool 1)).2).total = (acquire (mkPool 1)).2.created := by
  have h := C9_pool_conservation (acquire (mkPool 1)).2
    (Reachable.acq _ (Reachable.init 1))
  exact ⟨h.1, h.2.1⟩

/-- C10.  Implicit pool structural invariant: in every reachable state
the free list has no duplicates and is disjoint from the in-use set,
and consequently `acquire()` never returns an object that is already in
use at the time of the call. -/
theorem C10_pool_disjointness (p : ObjectPool) (h : Reachable p) :
    p.available.Nodup ∧
    (∀ x ∈ p.available, x ∉ p.inUse) ∧
    (acquire p).1 ∉ p.inUse := by
  obtain ⟨hav, hiu, hdisj, hbav, hbiu, hcons⟩ := wf_of_reachable h
  refine ⟨hav, hdisj, ?_⟩
  match hp : p.available with
  | x :: rest =>
      have hxiu : x ∉ p.inUse :=
        hdisj x (by rw [hp]; exact List.mem_cons_self x rest)
      simpa [acquire, hp] using hxiu
  | [] =>
      have hfresh : p.nextId ∉ p.inUse := fun hm => lt_irrefl _ (hbiu _ hm)
      simpa [acquire, hp] using hfresh

/-- Witness for C10 at the reachable state reached by
acquire; release 0; acquire from `mkPool 2`. -/
theorem C10_pool_disjointness_witness :
    ((release (acquire (mkPool 2)).2 1).available.Nodup ∧
      (∀ x ∈ (release (acquire (mkPool 2)).2 1).available,
        x ∉ (release (acquire (mkPool 2)).2 1).inUse) ∧
      (acquire (release (acquire (mkPool 2)).2 1)).1 ∉
        (release (acquire (mkPool 2)).2 1).inUse) := by
  exact C10_pool_disjointness _
    (Reachable.rel _ 1 (Reachable.acq _ (Reachable.init 2)))

/-! ## Claim C2: collision adjudication -/

theorem checkCollision_eq_true_iff (cells occ recent : List Cell) :
    checkCollision cells occ recent = true ↔
      ∃ c ∈ cells, c ∈ occ ∧ c ∉ recent := by
  simp [checkCollision, List.any_eq_true]

theorem mem_cellAdd {l : List Cell} {a c : Cell} :
    c ∈ cellAdd l a ↔ c ∈ l ∨ c = a := by
  by_cases h : a ∈ l
  · simp only [cellAdd, if_pos h]
    constructor
    · exact Or.inl
    · rintro (hc | rfl)
      · exact hc
      · exact h
  · simp [cellAdd, if_neg h]

theorem mem_foldl_cellAdd (cells : List Cell) :
    ∀ (l : List Cell) (c : Cell),
      c ∈ cells.foldl cellAdd l ↔ c ∈ l ∨ c ∈ cells := by
  induction cells with
  | nil => intro l c; simp
  | cons a rest ih =>
      intro l c
      rw [List.foldl_cons, ih (cellAdd l a) c, mem_cellAdd]
      simp only [List.mem_cons]
      tauto

/-- C2.  Collision adjudication rule: `trySpawnRoadPiece` rejects a
candidate exactly when one of its sampled centerline cells is occupied
and outside the seam-tolerance set built from the most recent two
committed pieces (`recentCells`); on acceptance it commits the piece
and adds exactly its sampled cells to the occupied set. -/
theorem C2_collision_adjudication (p : RoadPiece) (st : RoadState) :
    (trySpawnRoadPiece p st = none ↔
      ∃ c ∈ sampleRoadCells p, c ∈ st.occupiedCells ∧ c ∉ recentCells st) ∧
    (∀ st', trySpawnRoadPiece p st = some st' →
      st'.roadPieces = st.roadPieces ++ [p] ∧
      ∀ c : Cell, c ∈ st'.occupiedCells ↔
        c ∈ st.occupiedCells ∨ c ∈ sampleRoadCells p) := by
  by_cases h : checkCollision (sampleRoadCells p) st.occupiedCells
      (recentCells st) = true
  · have hnone : trySpawnRoadPiece p st = none := by
      simp only [trySpawnRoadPiece]
      rw [if_pos h]
    refine ⟨?_, ?_⟩
    · simp only [hnone, true_iff]
      exact (checkCollision_eq_true_iff _ _ _).mp h
    · intro st' hst'
      rw [hnone] at hst'
      exact absurd hst' (by simp)
  · have hsome : trySpawnRoadPiece p st = some
        { occupiedCells := (sampleRoadCells p).foldl cellAdd st.occupiedCells
          roadPieces := st.roadPieces ++ [p] } := by
      simp only [trySpawnRoadPiece]
      rw [if_neg h]
    refine ⟨?_, ?_⟩
    · rw [hsome]
      constructor
      · intro hc
        exact absurd hc (by simp)
      · intro hex
        exact absurd ((checkCollision_eq_true_iff _ _ _).mpr hex) h
    · intro st' hst'
      rw [hsome, Option.some.injEq] at hst'
      subst hst'
      exact ⟨rfl, fun c => mem_foldl_cellAdd (sampleRoadCells p)
        st.occupiedCells c⟩

unseal Rat.mul Rat.add Rat.sub Rat.inv in
/-- Witness for C2: a 4-unit straight piece committed into an empty
state occupies exactly its sampled cells. -/
theorem C2_collision_adjudication_witness :
    (trySpawnRoadPiece ⟨0, 0, some (0, 4)⟩ ⟨[], []⟩ =
      some ⟨[(0, 0), (0, 1), (0, 2)], [⟨0, 0, some (0, 4)⟩]⟩) ∧
    ((⟨[(0, 0), (0, 1), (0, 2)], [⟨0, 0, some (0, 4)⟩]⟩ :
        RoadState).roadPieces = [] ++ [⟨0, 0, some (0, 4)⟩] ∧
      ∀ c : Cell, c ∈ (⟨[(0, 0), (0, 1), (0, 2)],
          [⟨0, 0, some (0, 4)⟩]⟩ : RoadState).occupiedCells ↔
        c ∈ ([] : List Cell) ∨ c ∈ sampleRoadCells ⟨0, 0, some (0, 4)⟩) :=
  ⟨by decide,
   (C2_collision_adjudication ⟨0, 0, some (0, 4)⟩ ⟨[], []⟩).2
     ⟨[(0, 0), (0, 1), (0, 2)], [⟨0, 0, some (0, 4)⟩]⟩ (by decide)⟩

/-! ## Claim C3: chain connectivity by construction -/

theorem entry_addSegmentAhead (cs : ℚ × ℚ) (t : SegTemplate) (e : Vec2) :
    entryWorld (addSegmentAhead cs t e).2 = e := by
  show e - rotY cs.1 cs.2 t.inPoint + rotY cs.1 cs.2 t.inPoint = e
  abel

theorem runChain_connected (l : List ((ℚ × ℚ) × SegTemplate)) (e : Vec2) :
    List.Chain' (fun a b => entryWorld b = exitWorld a) (runChain l e).2 ∧
    ∀ hd, (runChain l e).2.head? = some hd → entryWorld hd = e := by
  induction l generalizing e with
  | nil => simp [runChain]
  | cons step rest ih =>
      obtain ⟨ihc, ihh⟩ := ih (addSegmentAhead step.1 step.2 e).1
      constructor
      · show List.Chain' _ ((addSegmentAhead step.1 step.2 e).2 ::
          (runChain rest (addSegmentAhead step.1 step.2 e).1).2)
        refine List.chain'_cons'.mpr ⟨?_, ihc⟩
        intro y hy
        rw [ihh y hy]
        rfl
      · intro hd h
        have hhd : hd = (addSegmentAhead step.1 step.2 e).2 := by
          simpa [runChain] using h.symm
        rw [hhd]
        exact entry_addSegmentAhead step.1 step.2 e

/-- C3.  Chain connectivity by construction: in every chain produced by
repeated `addSegmentAhead` calls, each non-initial segment's entry
connection point coincides (exactly, in the exact-arithmetic model;
hence within any floating epsilon) with the previous segment's resolved
exit point, because the placement computes the mesh position as
`currentEnd - rotate(inPoint, angle)`; when the entry offset is zero
(the origin itself is the entry socket) the mesh position equals the
target transform directly. -/
theorem C3_chain_connectivity :
    (∀ (steps : List ((ℚ × ℚ) × SegTemplate)) (start : Vec2),
      List.Chain' (fun a b => entryWorld b = exitWorld a)
        (runChain steps start).2) ∧
    (∀ (cs : ℚ × ℚ) (t : SegTemplate) (currentEnd : Vec2),
      entryWorld (addSegmentAhead cs t currentEnd).2 = currentEnd) ∧
    (∀ (cs : ℚ × ℚ) (t : SegTemplate) (currentEnd : Vec2),
      t.inPoint = (0, 0) →
      (addSegmentAhead cs t currentEnd).2.pos = currentEnd) := by
  refine ⟨fun steps start => (runChain_connected steps start).1,
    entry_addSegmentAhead, ?_⟩
  intro cs t e h
  show e - rotY cs.1 cs.2 t.inPoint = e
  rw [h]
  show e - (cs.1 * 0 + cs.2 * 0, cs.1 * 0 - cs.2 * 0) = e
  norm_num

/-- Witness for C3: a concrete two-segment chain is connected, and a
zero entry offset places the mesh exactly at the target. -/
theorem C3_chain_connectivity_witness :
    List.Chain' (fun a b => entryWorld b = exitWorld a)
      (runChain [((1, 0), ⟨(0, 1), (0, 3)⟩), ((1, 0), ⟨(0, 0), (2, 5)⟩)]
        (0, 0)).2 ∧
    entryWorld (addSegmentAhead (1, 0) ⟨(0, 1), (0, 3)⟩ (4, 2)).2 = (4, 2) ∧
    (addSegmentAhead (1, 0) ⟨(0, 0), (1, 2)⟩ (4, 2)).2.pos = (4, 2) :=
  ⟨C3_chain_connectivity.1 _ _, C3_chain_connectivity.2.1 _ _ _,
    C3_chain_connectivity.2.2 (1, 0) ⟨(0, 0), (1, 2)⟩ (4, 2) rfl⟩

/-! ## Claim C4: direction-rule compliance -/

theorem ruleAllows_curve_min {st : DirState} {c : Candidate}
    (hc : isCurveKey c.key = true) (hal : ruleAllows st c = true) :
    MIN_STRAIGHTS_AFTER_CURVE ≤ st.straightsSinceCurve := by
  by_contra hlt
  push_neg at hlt
  simp [ruleAllows, hc, hlt] at hal

theorem ruleAllows_curve_cap {st : DirState} {c : Candidate}
    (hc : isCurveKey c.key = true) (hal : ruleAllows st c = true) :
    ¬(candDir c = st.lastCurveDir ∧
      MAX_SAME_DIR_CURVES ≤ st.sameDirCount) := by
  intro hand
  have hge : ¬ st.straightsSinceCurve < MIN_STRAIGHTS_AFTER_CURVE := by
    intro hlt
    simp [ruleAllows, hc, hlt] at hal
  simp [ruleAllows, hc, hge, hand.1, hand.2] at hal

theorem firstAccepted_mem {accept : Candidate → Bool} :
    ∀ {l : List Candidate} {c : Candidate},
      firstAccepted accept l = some c → c ∈ l := by
  intro l
  induction l with
  | nil => intro c h; simp [firstAccepted] at h
  | cons a rest ih =>
      intro c h
      rw [firstAccepted] at h
      by_cases ha : accept a = true
      · rw [if_pos ha, Option.some.injEq] at h
        subst h
        exact List.mem_cons_self a rest
      · rw [if_neg ha] at h
        exact List.mem_cons_of_mem a (ih h)

theorem dirInv_init : DirInv ⟨initDirState, []⟩ := by
  refine ⟨?_, ?_, ?_, rfl, ?_, ?_⟩ <;> simp [curveDirs, List.infix_nil]

theorem dirInv_commit {g : GenState} {c : Candidate}
    (h : DirInv g) (hal : ruleAllows g.dirState c = true) :
    DirInv ⟨commitUpdate g.dirState c, c :: g.committedRev⟩ := by
  obtain ⟨h1, h2, h3, h4, h5, h6⟩ := h
  by_cases hc : isCurveKey c.key = true
  · -- committing a curve
    have hmin := ruleAllows_curve_min hc hal
    have hcap := ruleAllows_curve_cap hc hal
    have hcd : curveDirs (c :: g.committedRev) =
        candDir c :: curveDirs g.committedRev := by
      simp [curveDirs, List.filter_cons, hc]
    have hcu : commitUpdate g.dirState c =
        ⟨candDir c,
          if candDir c = g.dirState.lastCurveDir then
            g.dirState.sameDirCount + 1
          else 1, 0⟩ := by
      simp [commitUpdate, hc]
    refine ⟨?_, ?_, ?_, ?_, ?_, ?_⟩
    · intro c' _ _
      rw [hcu]
    · intro d hd
      rw [hcd] at hd
      simp only [List.head?_cons, Option.some.injEq] at hd
      rw [hcu]
      refine ⟨hd, ?_⟩
      show 1 ≤ if candDir c = g.dirState.lastCurveDir then
        g.dirState.sameDirCount + 1 else 1
      by_cases hdd : candDir c = g.dirState.lastCurveDir
      · rw [if_pos hdd]; omega
      · rw [if_neg hdd]
    · intro d hd hd2
      rw [hcd] at hd hd2
      simp only [List.head?_cons, Option.some.injEq] at hd
      simp only [List.tail_cons] at hd2
      have hold := h2 d hd2
      have heq : candDir c = g.dirState.lastCurveDir := by
        rw [hd, hold.1]
      have hone := hold.2
      rw [hcu]
      show 2 ≤ if candDir c = g.dirState.lastCurveDir then
        g.dirState.sameDirCount + 1 else 1
      rw [if_pos heq]
      omega
    · show commitUpdate g.dirState c =
        (c :: g.committedRev).reverse.foldl commitUpdate initDirState
      rw [List.reverse_cons, List.foldl_concat, ← h4]
    · intro e hinf
      rw [hcd] at hinf
      rcases List.infix_cons_iff.mp hinf with hpre | hinf'
      · obtain ⟨heq, hpre2⟩ := List.cons_prefix_cons.mp hpre
        obtain ⟨t, ht⟩ := hpre2
        have hh : (curveDirs g.committedRev).head? = some e := by
          rw [← ht]; rfl
        have hh2 : (curveDirs g.committedRev).tail.head? = some e := by
          rw [← ht]; rfl
        have hcnt := h3 e hh hh2
        have hlast := (h2 e hh).1
        exact hcap ⟨by rw [hlast, heq], hcnt⟩
      · exact h5 e hinf'
    · refine List.chain'_cons'.mpr ⟨?_, h6⟩
      intro y hy hand
      have hzero := h1 y (Option.mem_def.mp hy) hand.2
      rw [hzero] at hmin
      simp [MIN_STRAIGHTS_AFTER_CURVE] at hmin
  · -- committing a straight
    have hcf : isCurveKey c.key = false := by
      cases hcc : isCurveKey c.key
      · rfl
      · exact absurd hcc hc
    have hcd : curveDirs (c :: g.committedRev) = curveDirs g.committedRev := by
      simp [curveDirs, List.filter_cons, hcf]
    have hcu : commitUpdate g.dirState c =
        { g.dirState with
            straightsSinceCurve := g.dirState.straightsSinceCurve + 1 } := by
      simp [commitUpdate, hcf]
    refine ⟨?_, ?_, ?_, ?_, ?_, ?_⟩
    · intro c' hc' hcurve'
      simp only [List.head?_cons, Option.some.injEq] at hc'
      rw [← hc'] at hcurve'
      rw [hcurve'] at hcf
      cases hcf
    · intro d hd
      rw [hcd] at hd
      rw [hcu]
      exact h2 d hd
    · intro d hd hd2
      rw [hcd] at hd hd2
      rw [hcu]
      exact h3 d hd hd2
    · show commitUpdate g.dirState c =
        (c :: g.committedRev).reverse.foldl commitUpdate initDirState
      rw [List.reverse_cons, List.foldl_concat, ← h4]
    · intro e
      rw [hcd]
      exact h5 e
    · refine List.chain'_cons'.mpr ⟨?_, h6⟩
      intro y _ hand
      rw [hand.1] at hcf
      cases hcf

theorem dirInv_spawnLoop (shuffle : ℕ → List Candidate → List Candidate)
    (accept : ℕ → Candidate → Bool)
    (hsh : ∀ (i : ℕ) (l : List Candidate), shuffle i l ⊆ l) :
    ∀ (fuel i : ℕ) (g : GenState), DirInv g →
      DirInv (spawnLoop shuffle accept fuel i g) := by
  intro fuel
  induction fuel with
  | zero => intro i g h; exact h
  | succ fuel ih =>
      intro i g h
      rw [spawnLoop]
      cases hstep : spawnStep shuffle accept i g with
      | none => exact h
      | some g' =>
          apply ih
          rw [spawnStep] at hstep
          cases hfa : firstAccepted (accept i)
              (shuffle i (filterByRules g.dirState (buildCandidates i))) with
          | none => rw [hfa] at hstep; cases hstep
          | some c =>
              rw [hfa, Option.some.injEq] at hstep
              have hmem : c ∈ filterByRules g.dirState (buildCandidates i) :=
                hsh i _ (firstAccepted_mem hfa)
              have hal : ruleAllows g.dirState c = true :=
                (List.mem_filter.mp hmem).2
              rw [← hstep]
              exact dirInv_commit h hal

/-- C4.  Direction-rule compliance, for every shuffling oracle that
permutes (or subsets) its input and every collision oracle: in the
chronological committed sequence, the curve subsequence never contains
three consecutive equal directions (no run of same-direction curves
exceeds `MAX_SAME_DIR_CURVES = 2`), no two consecutive commits are both
curves (every curve has at least `MIN_STRAIGHTS_AFTER_CURVE = 1`
straight since the previous curve), and the final tracking state is
exactly the fold of `commitUpdate` over the committed sequence — the
tracking state is updated only by commits, never by rejected
attempts. -/
theorem C4_direction_rules (count : ℕ)
    (shuffle : ℕ → List Candidate → List Candidate)
    (accept : ℕ → Candidate → Bool)
    (hsh : ∀ (i : ℕ) (l : List Candidate), shuffle i l ⊆ l) :
    (∀ d : ℤ, ¬ [d, d, d] <:+: curveDirs
      (spawnProceduralRoadSystem1 count shuffle accept).committedRev.reverse) ∧
    List.Chain' (fun a b => ¬(isCurveKey a.key = true ∧ isCurveKey b.key = true))
      (spawnProceduralRoadSystem1 count shuffle accept).committedRev.reverse ∧
    (spawnProceduralRoadSystem1 count shuffle accept).dirState =
      (spawnProceduralRoadSystem1 count shuffle accept).committedRev.reverse.foldl
        commitUpdate initDirState := by
  obtain ⟨h1, h2, h3, h4, h5, h6⟩ :=
    dirInv_spawnLoop shuffle accept hsh count 0 ⟨initDirState, []⟩ dirInv_init
  refine ⟨?_, ?_, h4⟩
  · intro d hinf
    apply h5 d
    have hrev : curveDirs
        (spawnProceduralRoadSystem1 count shuffle accept).committedRev.reverse =
        (curveDirs
          (spawnProceduralRoadSystem1 count shuffle accept).committedRev).reverse := by
      simp [curveDirs, List.filter_reverse, List.map_reverse]
    rw [hrev] at hinf
    have : ([d, d, d] : List ℤ).reverse <:+:
        (curveDirs
          (spawnProceduralRoadSystem1 count shuffle accept).committedRev).reverse := by
      simpa using hinf
    exact List.reverse_infix.mp this
  · rw [List.chain'_reverse]
    exact h6.imp fun a b hab h => hab ⟨h.2, h.1⟩

/-- Witness for C4 with the identity shuffle and an all-accepting
collision oracle over six pieces. -/
theorem C4_direction_rules_witness :
    (∀ d : ℤ, ¬ [d, d, d] <:+: curveDirs
      (spawnProceduralRoadSystem1 6 (fun _ l => l)
        (fun _ _ => true)).committedRev.reverse) ∧
    List.Chain' (fun a b => ¬(isCurveKey a.key = true ∧ isCurveKey b.key = true))
      (spawnProceduralRoadSystem1 6 (fun _ l => l)
        (fun _ _ => true)).committedRev.reverse ∧
    (spawnProceduralRoadSystem1 6 (fun _ l => l)
        (fun _ _ => true)).dirState =
      (spawnProceduralRoadSystem1 6 (fun _ l => l)
        (fun _ _ => true)).committedRev.reverse.foldl
        commitUpdate initDirState :=
  C4_direction_rules 6 (fun _ l => l) (fun _ _ => true)
    (fun _ l => List.Subset.refl l)

/-! ## Claim C5: missing-exit-socket behaviour -/

unseal Rat.mul Rat.add Rat.sub Rat.inv in
/-- C5 counterexample: a piece without a discoverable exit socket is
sampled by `sampleRoadCells` as the *empty* cell list — not as the
single-point centerline the claim describes — and a 3-piece
`generateRoad` run whose templates all lack sockets commits all 3
requested pieces instead of stopping the chain early. -/
theorem C5_counterexample :
    sampleRoadCells ⟨0, 0, none⟩ = [] ∧
    sampleRoadCells ⟨0, 0, none⟩ ≠ [cellKey 0 0] ∧
    genRoadNoSocket3.road.roadPieces.length = 3 :=
  ⟨rfl, by decide, by decide⟩

theorem tryPieceNames_noSocket {σ : Type}
    (templates : RoadKey → Option (TemplateGeom σ))
    (htm : ∀ n, templates n = some ⟨none⟩)
    (pos : Vec2) (rot : σ) (st : RoadState) :
    ∀ (l : List RoadKey), l ≠ [] →
      tryPieceNames templates pos rot st l =
        some (⟨none⟩,
          { occupiedCells := st.occupiedCells
            roadPieces := st.roadPieces ++ [⟨pos.1, pos.2, none⟩] }) := by
  intro l hl
  cases l with
  | nil => exact absurd rfl hl
  | cons n rest =>
      have hts : trySpawnRoadPiece (mkInstance (⟨none⟩ : TemplateGeom σ)
          pos rot) st = some
          { occupiedCells := st.occupiedCells
            roadPieces := st.roadPieces ++ [⟨pos.1, pos.2, none⟩] } := by
        show trySpawnRoadPiece ⟨pos.1, pos.2, none⟩ st = _
        simp [trySpawnRoadPiece, sampleRoadCells, checkCollision]
      rw [tryPieceNames, htm n]
      dsimp only
      rw [hts]

theorem genRoadLoop_noSocket {σ : Type}
    (templates : RoadKey → Option (TemplateGeom σ))
    (shuffleK : ℕ → List RoadKey → List RoadKey)
    (htm : ∀ n, templates n = some ⟨none⟩)
    (hsh : ∀ (i : ℕ) (l : List RoadKey), l ≠ [] → shuffleK i l ≠ []) :
    ∀ (fuel i : ℕ) (g : GenRoadState σ), g.consecutiveFailures = 0 →
      (generateRoadLoop templates shuffleK fuel i g).road.roadPieces.length
          = g.road.roadPieces.length + fuel ∧
      (generateRoadLoop templates shuffleK fuel i g).currentPos =
          g.currentPos ∧
      (generateRoadLoop templates shuffleK fuel i g).road.occupiedCells =
          g.road.occupiedCells := by
  intro fuel
  induction fuel with
  | zero => intro i g _; exact ⟨rfl, rfl, rfl⟩
  | succ fuel ih =>
      intro i g hcf
      have hlt : g.consecutiveFailures < maxFailures := by
        rw [hcf]; decide
      have hne : shuffleK i (if 0 < g.consecutiveFailures then
          [RoadKey.road_long, RoadKey.road_short]
        else [RoadKey.road_long, RoadKey.road_short,
          RoadKey.road_curve_wide, RoadKey.road_curve_tight]) ≠ [] := by
        apply hsh
        rw [hcf]
        simp
      rw [generateRoadLoop, if_pos hlt]
      dsimp only
      rw [tryPieceNames_noSocket templates htm _ _ _ _ hne]
      dsimp only [instanceSocketTransform, Option.map_none']
      have hmain := ih (i + 1)
        { g with
            road := { occupiedCells := g.road.occupiedCells
                      roadPieces := g.road.roadPieces ++
                        [⟨g.currentPos.1, g.currentPos.2, none⟩] }
            consecutiveFailures := 0 } rfl
      refine ⟨?_, hmain.2.1, hmain.2.2⟩
      rw [hmain.1]
      simp only [List.length_append, List.length_cons, List.length_nil]
      omega

/-- C5 (amended).  A template lacking a discoverable exit connection
point is sampled by `sampleRoadCells` as an *empty* centerline (no
cells at all); `generateRoad` then treats every such candidate as an
unconditional success — the empty sample can never collide — commits
it, and, finding no socket transform, leaves the frontier unchanged and
keeps going, so the caller observes the *full* requested committed
count rather than a shorter chain.  (The early chain stop on a missing
`socket_out` lives in the spine-and-branch builder, not in
`generateRoad`.)  Nothing throws: the run is total. -/
theorem C5_missing_socket {σ : Type}
    (templates : RoadKey → Option (TemplateGeom σ))
    (shuffleK : ℕ → List RoadKey → List RoadKey)
    (htm : ∀ n, templates n = some ⟨none⟩)
    (hsh : ∀ (i : ℕ) (l : List RoadKey), l ≠ [] → shuffleK i l ≠ [])
    (count : ℕ) (rot0 : σ) :
    (∀ p : RoadPiece, p.socket = none → sampleRoadCells p = []) ∧
    (generateRoad templates shuffleK count rot0).road.roadPieces.length =
      count ∧
    (generateRoad templates shuffleK count rot0).currentPos = (0, 0) ∧
    (generateRoad templates shuffleK count rot0).road.occupiedCells = [] := by
  have hrun := genRoadLoop_noSocket templates shuffleK htm hsh count 0
    { road := ⟨∅, []⟩, currentPos := (0, 0), currentRot := rot0
      consecutiveFailures := 0 } rfl
  refine ⟨?_, ?_, hrun.2.1, hrun.2.2⟩
  · intro p hp
    show (match p.socket with
      | none => ([] : List Cell)
      | some (ex, ez) =>
          let steps := max 1 (ceilSqrt ((ex - p.x) ^ 2 + (ez - p.z) ^ 2))
          (List.range (steps + 1)).map fun i =>
            let t : ℚ := (i : ℚ) / (steps : ℚ)
            cellKey (p.x + (ex - p.x) * t) (p.z + (ez - p.z) * t)) = []
    rw [hp]
  · show (generateRoadLoop templates shuffleK count 0
        { road := ⟨∅, []⟩, currentPos := (0, 0), currentRot := rot0
          consecutiveFailures := 0 }).road.roadPieces.length = count
    rw [hrun.1]
    simp

/-- Witness for C5 (amended) with the concrete socket-less template
table, the identity shuffle, three requested pieces. -/
theorem C5_missing_socket_witness :
    ((∀ p : RoadPiece, p.socket = none → sampleRoadCells p = []) ∧
      genRoadNoSocket3.road.roadPieces.length = 3 ∧
      genRoadNoSocket3.currentPos = (0, 0) ∧
      genRoadNoSocket3.road.occupiedCells = []) :=
  C5_missing_socket noSocketTemplates idShuffleK (fun _ => rfl)
    (fun _ _ h => h) 3 ()

/-! ## Claim C1: occupancy-grid consistency on retirement -/

set_option maxRecDepth 80000 in
unseal Rat.mul Rat.add Rat.sub Rat.inv in
/-- C1 exhibit.  Concrete run of the embedded `BuildingManager` under
the `Math.random` stream `bugRnd`, driven only by public operations
(`update` at player z = 199, 188, −50 from the constructor state): the
single building spawned during the second update claims cell (−1, −1)
(key computed from the *unjittered* section z = −1), is retired by the
third update — which deletes the key recomputed from the *jittered*
`worldZ` = 3.5, i.e. cell (−1, 0) — and afterwards no building is
active while the claimed cell (−1, −1) is still marked occupied.  The
claimed invariant (occupied iff claimed by an active instance, every
claimed cell released on retirement) fails on this run. -/
theorem C1_retire_leaves_claimed_cell :
    BuildingM.bmS2.activeBuildings.map (fun b => b.claimedCell) =
      [(-1, -1)] ∧
    (∀ b ∈ BuildingM.bmS2.activeBuildings,
      b.worldZ = 7 / 2 ∧ b.claimedCell ∈ BuildingM.bmS3.occupiedCells) ∧
    BuildingM.bmS3.activeBuildings = [] ∧
    BuildingM.bmS3.occupiedCells = [(-1, -1)] := by
  refine ⟨by decide, by decide, by decide, by decide⟩

/-! ## Claim C6: spine-and-branch mode -/

namespace System3

theorem spineStep_pieces {T : Type} (leftS rightS : ℕ → T → Option T)
    (i : ℕ) (useRoadX : Bool) (cur : T) (acc : SpineAcc T) :
    (spineStep leftS rightS i useRoadX cur acc).pieces =
      acc.pieces ++
        [⟨i, if useRoadX then PieceType.RoadX else PieceType.Road1, cur⟩] := by
  cases useRoadX <;> rfl

theorem spineStep_branches_false {T : Type} (leftS rightS : ℕ → T → Option T)
    (i : ℕ) (cur : T) (acc : SpineAcc T) :
    (spineStep leftS rightS i false cur acc).branches = acc.branches := rfl

theorem spineStep_branches_true_length {T : Type}
    {leftS rightS : ℕ → T → Option T} {i : ℕ} {cur : T}
    (acc : SpineAcc T) (hl : (leftS i cur).isSome = true)
    (hr : (rightS i cur).isSome = true) :
    (spineStep leftS rightS i true cur acc).branches.length =
      acc.branches.length + 2 := by
  obtain ⟨lt, hlt⟩ := Option.isSome_iff_exists.mp hl
  obtain ⟨rt, hrt⟩ := Option.isSome_iff_exists.mp hr
  simp [spineStep, hlt, hrt]

theorem spineStep_roadXCount_false {T : Type}
    (leftS rightS : ℕ → T → Option T) (i : ℕ) (cur : T) (acc : SpineAcc T) :
    roadXCount (spineStep leftS rightS i false cur acc).pieces =
      roadXCount acc.pieces := by
  rw [roadXCount, spineStep_pieces]
  simp [roadXCount]

theorem spineStep_roadXCount_true {T : Type}
    (leftS rightS : ℕ → T → Option T) (i : ℕ) (cur : T) (acc : SpineAcc T) :
    roadXCount (spineStep leftS rightS i true cur acc).pieces =
      roadXCount acc.pieces + 1 := by
  rw [roadXCount, spineStep_pieces]
  simp [roadXCount]

theorem spineStep_branch_len {T : Type} (leftS rightS : ℕ → T → Option T)
    (i : ℕ) (useRoadX : Bool) (cur : T) (acc : SpineAcc T)
    (hacc : ∀ b ∈ acc.branches, b.len = 5) :
    ∀ b ∈ (spineStep leftS rightS i useRoadX cur acc).branches, b.len = 5 := by
  cases useRoadX
  · exact hacc
  · intro b hb
    have hb' : b ∈ (acc.branches ++
        ((leftS i cur).toList.map fun t => (⟨t, true, 5⟩ : BranchReq T))) ++
        ((rightS i cur).toList.map fun t => (⟨t, false, 5⟩ : BranchReq T)) := hb
    rcases List.mem_append.mp hb' with h12 | h3
    · rcases List.mem_append.mp h12 with h1 | h2
      · exact hacc b h1
      · rcases List.mem_map.mp h2 with ⟨t, _, rfl⟩
        rfl
    · rcases List.mem_map.mp h3 with ⟨t, _, rfl⟩
      rfl

theorem spineLoop_roadX_interior {T : Type}
    (outS leftS rightS : ℕ → T → Option T) :
    ∀ (fuel i seed : ℕ) (cur : T) (acc : SpineAcc T),
      (∀ p ∈ acc.pieces, p.type = PieceType.RoadX →
        0 < p.idx ∧ p.idx < SPINE_LENGTH - 1) →
      ∀ p ∈ (spineLoop outS leftS rightS fuel i seed cur acc).pieces,
        p.type = PieceType.RoadX → 0 < p.idx ∧ p.idx < SPINE_LENGTH - 1 := by
  intro fuel
  induction fuel with
  | zero => intro i seed cur acc hacc; exact hacc
  | succ fuel ih =>
      intro i seed cur acc hacc
      rw [spineLoop]
      have hstep : ∀ p ∈ (spineStep leftS rightS i
          (if 0 < i ∧ i < SPINE_LENGTH - 1 then
            decide ((seededRandom seed).2 < ROADX_CHANCE) else false)
          cur acc).pieces,
          p.type = PieceType.RoadX → 0 < p.idx ∧ p.idx < SPINE_LENGTH - 1 := by
        intro p hp hpx
        rw [spineStep_pieces] at hp
        rcases List.mem_append.mp hp with h1 | h2
        · exact hacc p h1 hpx
        · simp only [List.mem_singleton] at h2
          subst h2
          by_cases hint : 0 < i ∧ i < SPINE_LENGTH - 1
          · exact hint
          · rw [if_neg hint] at hpx
            simp at hpx
      cases houtS : outS i cur with
      | some nxt => exact ih (i + 1) _ nxt _ hstep
      | none => exact hstep

theorem spineLoop_length {T : Type} (outS leftS rightS : ℕ → T → Option T)
    (hout : ∀ (i : ℕ) (t : T), (outS i t).isSome = true) :
    ∀ (fuel i seed : ℕ) (cur : T) (acc : SpineAcc T),
      (spineLoop outS leftS rightS fuel i seed cur acc).pieces.length =
        acc.pieces.length + fuel := by
  intro fuel
  induction fuel with
  | zero => intro i seed cur acc; rfl
  | succ fuel ih =>
      intro i seed cur acc
      rw [spineLoop]
      cases houtS : outS i cur with
      | some nxt =>
          rw [ih, spineStep_pieces]
          simp only [List.length_append, List.length_cons, List.length_nil]
          omega
      | none =>
          have := hout i cur
          rw [houtS] at this
          cases this

theorem spineLoop_branch_count {T : Type}
    (outS leftS rightS : ℕ → T → Option T)
    (hl : ∀ (i : ℕ) (t : T), (leftS i t).isSome = true)
    (hr : ∀ (i : ℕ) (t : T), (rightS i t).isSome = true) :
    ∀ (fuel i seed : ℕ) (cur : T) (acc : SpineAcc T),
      (spineLoop outS leftS rightS fuel i seed cur acc).branches.length +
          2 * roadXCount acc.pieces =
        acc.branches.length +
          2 * roadXCount
            (spineLoop outS leftS rightS fuel i seed cur acc).pieces := by
  intro fuel
  induction fuel with
  | zero => intro i seed cur acc; rfl
  | succ fuel ih =>
      intro i seed cur acc
      rw [spineLoop]
      cases houtS : outS i cur with
      | some nxt =>
          dsimp only
          cases hu : (if 0 < i ∧ i < SPINE_LENGTH - 1 then
              decide ((seededRandom seed).2 < ROADX_CHANCE) else false) with
          | false =>
              have h1 := ih (i + 1)
                (if 0 < i ∧ i < SPINE_LENGTH - 1 then (seededRandom seed).1
                  else seed) nxt (spineStep leftS rightS i false cur acc)
              rw [spineStep_branches_false, spineStep_roadXCount_false] at h1
              omega
          | true =>
              have h1 := ih (i + 1)
                (if 0 < i ∧ i < SPINE_LENGTH - 1 then (seededRandom seed).1
                  else seed) nxt (spineStep leftS rightS i true cur acc)
              rw [spineStep_branches_true_length acc (hl i cur) (hr i cur),
                spineStep_roadXCount_true] at h1
              omega
      | none =>
          dsimp only
          cases hu : (if 0 < i ∧ i < SPINE_LENGTH - 1 then
              decide ((seededRandom seed).2 < ROADX_CHANCE) else false) with
          | false =>
              rw [spineStep_branches_false, spineStep_roadXCount_false]
          | true =>
              rw [spineStep_branches_true_length acc (hl i cur) (hr i cur),
                spineStep_roadXCount_true]
              omega

theorem spineLoop_branch_len {T : Type}
    (outS leftS rightS : ℕ → T → Option T) :
    ∀ (fuel i seed : ℕ) (cur : T) (acc : SpineAcc T),
      (∀ b ∈ acc.branches, b.len = 5) →
      ∀ b ∈ (spineLoop outS leftS rightS fuel i seed cur acc).branches,
        b.len = 5 := by
  intro fuel
  induction fuel with
  | zero => intro i seed cur acc hacc; exact hacc
  | succ fuel ih =>
      intro i seed cur acc hacc
      rw [spineLoop]
      have hstep := spineStep_branch_len leftS rightS i
        (if 0 < i ∧ i < SPINE_LENGTH - 1 then
          decide ((seededRandom seed).2 < ROADX_CHANCE) else false)
        cur acc hacc
      cases houtS : outS i cur with
      | some nxt => exact ih (i + 1) _ nxt _ hstep
      | none => exact hstep

theorem walkBranch_length {T : Type} (sockJ : ℕ → T → Option T)
    (hs : ∀ (j : ℕ) (t : T), (sockJ j t).isSome = true) :
    ∀ (fuel j : ℕ) (cur : T),
      (walkBranch sockJ fuel j cur).length = fuel := by
  intro fuel
  induction fuel with
  | zero => intro j cur; rfl
  | succ fuel ih =>
      intro j cur
      rw [walkBranch]
      cases hsj : sockJ j cur with
      | some nxt => simp [ih]
      | none =>
          have := hs j cur
          rw [hsj] at this
          cases this

theorem walkBranch_road1 {T : Type} (sockJ : ℕ → T → Option T) :
    ∀ (fuel j : ℕ) (cur : T),
      ∀ pt ∈ walkBranch sockJ fuel j cur, pt.1 = PieceType.Road1 := by
  intro fuel
  induction fuel with
  | zero => intro j cur pt hpt; cases hpt
  | succ fuel ih =>
      intro j cur pt hpt
      rw [walkBranch] at hpt
      cases hsj : sockJ j cur with
      | some nxt =>
          rw [hsj] at hpt
          rcases List.mem_cons.mp hpt with rfl | h2
          · rfl
          · exact ih (j + 1) nxt pt h2
      | none =>
          rw [hsj] at hpt
          rcases List.mem_cons.mp hpt with rfl | h2
          · rfl
          · cases h2

end System3

open System3 in
/-- C6.  Spine-and-branch mode: with all socket oracles resolving, the
mulberry32-seeded spine commits exactly `SPINE_LENGTH = 20` pieces and
every committed junction (RoadX) sits at an interior position
`0 < i < 19` (the seeded draw is consulted only there — junctions are
never first or last); each committed junction queues its left and right
branch-socket transforms, so exactly `2 * M` BranchRequests are queued,
each with requested chain length 5; each BranchRequest is then walked
as its own chain of exactly 5 straight (`Road1`) pieces (fewer is
possible only when a piece yields no exit socket, which the resolving
hypothesis rules out); and the run performs no collision checking —
`this.occupiedCells` is returned untouched and the committed pieces,
requests and branch chains do not depend on it. -/
theorem C6_spine_and_branch {T : Type}
    (outS leftS rightS : ℕ → T → Option T)
    (branchOutS : ℕ → ℕ → T → Option T) (t0 : T) (occ : List Cell)
    (hout : ∀ (i : ℕ) (t : T), (outS i t).isSome = true)
    (hl : ∀ (i : ℕ) (t : T), (leftS i t).isSome = true)
    (hr : ∀ (i : ℕ) (t : T), (rightS i t).isSome = true)
    (hbr : ∀ (k j : ℕ) (t : T), (branchOutS k j t).isSome = true) :
    (spawnSpineAndBranchSystem3 outS leftS rightS branchOutS t0
        occ).1.pieces.length = SPINE_LENGTH ∧
    (∀ p ∈ (spawnSpineAndBranchSystem3 outS leftS rightS branchOutS t0
        occ).1.pieces,
      p.type = PieceType.RoadX → 0 < p.idx ∧ p.idx < SPINE_LENGTH - 1) ∧
    (spawnSpineAndBranchSystem3 outS leftS rightS branchOutS t0
        occ).1.branches.length =
      2 * roadXCount (spawnSpineAndBranchSystem3 outS leftS rightS branchOutS
        t0 occ).1.pieces ∧
    (∀ b ∈ (spawnSpineAndBranchSystem3 outS leftS rightS branchOutS t0
        occ).1.branches, b.len = 5) ∧
    (∀ chain ∈ (spawnSpineAndBranchSystem3 outS leftS rightS branchOutS t0
        occ).2.1,
      chain.length = 5 ∧ ∀ pt ∈ chain, pt.1 = PieceType.Road1) ∧
    (spawnSpineAndBranchSystem3 outS leftS rightS branchOutS t0 occ).2.2 =
      occ ∧
    ((spawnSpineAndBranchSystem3 outS leftS rightS branchOutS t0 occ).1 =
        (spawnSpineAndBranchSystem3 outS leftS rightS branchOutS t0 []).1 ∧
      (spawnSpineAndBranchSystem3 outS leftS rightS branchOutS t0 occ).2.1 =
        (spawnSpineAndBranchSystem3 outS leftS rightS branchOutS t0
          []).2.1) := by
  have hlen5 : ∀ b ∈ (spineLoop outS leftS rightS SPINE_LENGTH 0 SEED t0
      ⟨[], []⟩).branches, b.len = 5 :=
    spineLoop_branch_len outS leftS rightS SPINE_LENGTH 0 SEED t0 ⟨[], []⟩
      (by intro b hb; cases hb)
  refine ⟨?_, ?_, ?_, hlen5, ?_, rfl, rfl, rfl⟩
  · exact spineLoop_length outS leftS rightS hout SPINE_LENGTH 0 SEED t0
      ⟨[], []⟩
  · exact spineLoop_roadX_interior outS leftS rightS SPINE_LENGTH 0 SEED t0
      ⟨[], []⟩ (by intro p hp; cases hp)
  · have := spineLoop_branch_count outS leftS rightS hl hr SPINE_LENGTH 0
      SEED t0 ⟨[], []⟩
    simpa [roadXCount] using this
  · intro chain hchain
    rcases List.mem_map.mp hchain with ⟨kb, hkb, rfl⟩
    have hb5 : kb.2.len = 5 := hlen5 kb.2 (List.snd_mem_of_mem_enum hkb)
    constructor
    · rw [walkBranch_length (branchOutS kb.1) (hbr kb.1), hb5]
    · exact walkBranch_road1 (branchOutS kb.1) kb.2.len 0 kb.2.transform

open System3 in
/-- Witness for C6: concrete transform oracles over ℕ (each socket
resolves to the successor transform), the origin transform 0, and a
non-empty occupied set. -/
theorem C6_spine_and_branch_witness :
    (spawnSpineAndBranchSystem3 (T := ℕ) (fun _ t => some (t + 1))
        (fun _ t => some (t + 2)) (fun _ t => some (t + 3))
        (fun _ _ t => some (t + 4)) 0 [(0, 0)]).1.pieces.length =
      SPINE_LENGTH ∧
    (spawnSpineAndBranchSystem3 (T := ℕ) (fun _ t => some (t + 1))
        (fun _ t => some (t + 2)) (fun _ t => some (t + 3))
        (fun _ _ t => some (t + 4)) 0 [(0, 0)]).1.branches.length =
      2 * roadXCount (spawnSpineAndBranchSystem3 (T := ℕ)
        (fun _ t => some (t + 1)) (fun _ t => some (t + 2))
        (fun _ t => some (t + 3)) (fun _ _ t => some (t + 4)) 0
        [(0, 0)]).1.pieces ∧
    (∀ chain ∈ (spawnSpineAndBranchSystem3 (T := ℕ)
        (fun _ t => some (t + 1)) (fun _ t => some (t + 2))
        (fun _ t => some (t + 3)) (fun _ _ t => some (t + 4)) 0
        [(0, 0)]).2.1,
      chain.length = 5 ∧ ∀ pt ∈ chain, pt.1 = PieceType.Road1) ∧
    (spawnSpineAndBranchSystem3 (T := ℕ) (fun _ t => some (t + 1))
        (fun _ t => some (t + 2)) (fun _ t => some (t + 3))
        (fun _ _ t => some (t + 4)) 0 [(0, 0)]).2.2 = [(0, 0)] := by
  have h := C6_spine_and_branch (T := ℕ) (fun _ t => some (t + 1))
    (fun _ t => some (t + 2)) (fun _ t => some (t + 3))
    (fun _ _ t => some (t + 4)) 0 [(0, 0)]
    (fun _ _ => rfl) (fun _ _ => rfl) (fun _ _ => rfl) (fun _ _ _ => rfl)
  exact ⟨h.1, h.2.2.1, h.2.2.2.2.1, h.2.2.2.2.2.1⟩

end HyundaiMiniGame
